import Mathlib

/-!
Verification of the spawn-rx process-execution engine (src/src/index.ts)
against its natural-language specification.

The development shallowly embeds the TypeScript source:

* `runDownPath`, `findActualExecutable` (src/src/index.ts lines 80-180) as
  pure functions over an explicit filesystem/environment model;
* the per-subscription engine body of `spawn` (lines 404-546) as a trace
  machine over process events;
* the retry decorator (lines 551-568) as a recursion over attempt outcomes;
* `wrapObservableInPromise` / `wrapObservableInSplitPromise` (lines 573-620)
  as folds over the finished stream;
* `bufHandler` (lines 433-454) over modelled chunks and decoders.

External primitives (node path.join, fs.statSync / fs.existsSync, Buffer
decoding, rxjs subscription finalization) are modelled at their documented
boundary and noted at each definition.
-/

namespace SpawnRx

/-! ## Data model -/

/-- Output channel tag, `source: "stdout" | "stderr"` in the source. -/
inductive Src
  | stdout
  | stderr
deriving DecidableEq, Repr

/-- An `OutputLine` event: one decoded chunk (src/src/index.ts lines 204-207). -/
structure OutputLine where
  source : Src
  text : String
deriving DecidableEq, Repr

/-- Terminal errors of a spawn stream.  `spawnErr` embeds the `SpawnError`
class (message, exitCode, command, args, optional stdout/stderr buffers,
lines 18-43); `genericErr` embeds a plain `Error` (launch failure, stdin
conflict, stdin-source error). -/
inductive TermErr
  | spawnErr (message : String) (exitCode : Int) (command : String)
      (args : List String) (stdoutBuf stderrBuf : Option String)
  | genericErr (message : String)
deriving DecidableEq, Repr

/-- Terminal state of a stream: completion or a terminal error. -/
inductive Terminal
  | completed
  | errored (e : TermErr)
deriving DecidableEq, Repr

/-- The resolved command returned by `findActualExecutable`. -/
structure ResolvedCommand where
  cmd : String
  args : List String
deriving DecidableEq, Repr

/-! ## Environment and filesystem model

The resolver reads `process.platform`, `process.env.PATH`,
`process.env.SYSTEMROOT`, `process.execPath`, and queries the filesystem
through `statSync` / `existsSync` (any error treated as absence, per
`statSyncNoException`).  The filesystem is modelled as the list of paths
that exist. -/

structure SpawnEnv where
  isWindows : Bool
  pathVar : Option String
  systemRoot : String
  execPath : String
deriving DecidableEq, Repr

abbrev FileSys := List String

/-- Existence check backing both `statSyncNoException` (truthy stat result)
and `sfs.existsSync`: true exactly when the path exists. -/
def statOkay (fs : FileSys) (p : String) : Bool := fs.contains p

/-- Platform path separator used by node `path.join`. -/
def envSep (env : SpawnEnv) : String := if env.isWindows then "\\" else "/"

/-- Separator of PATH entries: `;` on win32, `:` elsewhere (line 100). -/
def pathListSep (env : SpawnEnv) : Char := if env.isWindows then ';' else ':'

/-- Character-level splitter implementing the JS `String.split` used on the
PATH variable: split at every separator occurrence, keeping empty pieces. -/
def splitCharsAux (sep : Char) : List Char → List Char → List (List Char)
  | [], acc => [acc.reverse]
  | c :: rest, acc =>
    if c = sep then acc.reverse :: splitCharsAux sep rest []
    else splitCharsAux sep rest (c :: acc)

/-- Split a string on a separator character, JS `split` semantics. -/
def splitOnChar (sep : Char) (s : String) : List String :=
  (splitCharsAux sep s.data []).map String.mk

/-- Test for `exe.match(/[\\/]/)` (line 85): the string holds a slash or a
backslash. -/
def hasPathSep (s : String) : Bool := s.data.any (fun c => c = '/' || c = '\\')

/-- Lower-case a string character-wise (ASCII, as the extension regexes
need). -/
def toLowerStr (s : String) : String := String.mk (s.data.map Char.toLower)

/-- Model of node `path.join a b` for the joins the resolver performs:
joining onto `"."` or `""` normalizes to the bare name (node drops the
leading dot segment); otherwise the separator is inserted.  Re-normalization
of separators inside `a`/`b` is not modelled (never relevant here). -/
def pathJoin (sep : String) (a b : String) : String :=
  if a = "" || a = "." then b else a ++ sep ++ b

/-- Case-insensitive extension test implementing the anchored regexes
`/\.ps1$/i`, `/\.(bat|cmd)$/i`, `/\.(js)$/i`. -/
def endsWithCI (s tail : String) : Bool := tail.data.isSuffixOf (toLowerStr s).data

/-! ## runDownPath (src/src/index.ts lines 80-113) -/

/-- The PATH-entry loop of `runDownPath` (lines 101-109): first entry whose
join with `exe` exists. -/
def searchEntries (fs : FileSys) (env : SpawnEnv) (entries : List String)
    (exe : String) : Option String :=
  entries.findSome? (fun p =>
    let needle := pathJoin (envSep env) p exe
    if statOkay fs needle then some needle else none)

/-- Embedding of `runDownPath` (lines 80-113): bail on a path separator;
try the current-directory join; then walk PATH entries; else return `exe`
unchanged. -/
def runDownPath (fs : FileSys) (env : SpawnEnv) (exe : String) : String :=
  if hasPathSep exe then exe
  else
    let target := pathJoin (envSep env) "." exe
    if statOkay fs target then target
    else
      match env.pathVar with
      | none => exe
      | some s =>
        match searchEntries fs env (splitOnChar (pathListSep env) s) exe with
        | some needle => needle
        | none => exe

/-! ## findActualExecutable (src/src/index.ts lines 131-180) -/

/-- Windows PowerShell host path built at line 158. -/
def powerShellPath (env : SpawnEnv) : String :=
  env.systemRoot ++ "\\System32\\WindowsPowerShell\\v1.0\\PowerShell.exe"

/-- cmd.exe path built at line 165. -/
def cmdExePath (env : SpawnEnv) : String := env.systemRoot ++ "\\System32\\cmd.exe"

/-- The extension-dispatch tail of `findActualExecutable` (lines 157-179):
`.ps1` to PowerShell with fixed flags, `.bat`/`.cmd` to cmd.exe `/C`,
`.js` to the node executable, anything else unchanged. -/
def dispatchByExtension (env : SpawnEnv) (exe : String) (args : List String) :
    ResolvedCommand :=
  if endsWithCI exe ".ps1" then
    ⟨powerShellPath env,
      ["-ExecutionPolicy", "Unrestricted", "-NoLogo", "-NonInteractive", "-File", exe]
        ++ args⟩
  else if endsWithCI exe ".bat" || endsWithCI exe ".cmd" then
    ⟨cmdExePath env, ["/C", exe] ++ args⟩
  else if endsWithCI exe ".js" then
    ⟨env.execPath, [exe] ++ args⟩
  else ⟨exe, args⟩

/-- The extension-probe loop (lines 147-154): for each of `.exe`, `.bat`,
`.cmd`, `.ps1` in order, run the candidate down PATH and return the first
candidate that exists. -/
def extensionProbe (fs : FileSys) (env : SpawnEnv) (exe : String) : Option String :=
  [".exe", ".bat", ".cmd", ".ps1"].findSome? (fun ext =>
    let possibleFullPath := runDownPath fs env (exe ++ ext)
    if statOkay fs possibleFullPath then some possibleFullPath else none)

/-- The win32 branch of `findActualExecutable` (lines 143-179) with an
explicit recursion budget standing in for the source self-call at line 152.
Fuel 0 falls back to plain dispatch; the theorems below show any fuel of at
least 1 gives the same result, so the budget is not a semantic stub. -/
def findActualExecutableWin (fs : FileSys) (env : SpawnEnv) :
    Nat → String → List String → ResolvedCommand
  | 0, exe, args => dispatchByExtension env exe args
  | _fuel + 1, exe, args =>
    if statOkay fs exe then dispatchByExtension env exe args
    else
      match extensionProbe fs env exe with
      | some p => findActualExecutableWin fs env _fuel p args
      | none => dispatchByExtension env exe args

/-- Embedding of `findActualExecutable` (lines 131-180): the POSIX branch
(line 139-141) returns `runDownPath` output with args untouched; the win32
branch probes extensions and dispatches. -/
def findActualExecutable (fs : FileSys) (env : SpawnEnv) (exe : String)
    (args : List String) : ResolvedCommand :=
  if env.isWindows then findActualExecutableWin fs env 2 exe args
  else ⟨runDownPath fs env exe, args⟩

/-- Non-recursive closed form of `findActualExecutable`: on win32, dispatch
the probe result (when the name does not exist as given and a probe hits),
otherwise dispatch the name itself; on POSIX, PATH-resolve and pass through
with no dispatch. -/
def amendedResolve (fs : FileSys) (env : SpawnEnv) (exe : String)
    (args : List String) : ResolvedCommand :=
  if env.isWindows then
    if statOkay fs exe then dispatchByExtension env exe args
    else
      match extensionProbe fs env exe with
      | some p => dispatchByExtension env p args
      | none => dispatchByExtension env exe args
  else ⟨runDownPath fs env exe, args⟩

/-- Modelled from the claim C5 wording (refinement reference): the PATH
search is applied to the executable on every platform, and extension
dispatch is then applied to the search result on every platform. -/
def claimedResolve (fs : FileSys) (env : SpawnEnv) (exe : String)
    (args : List String) : ResolvedCommand :=
  dispatchByExtension env (runDownPath fs env exe) args

/-! ## State-threaded resolver

The source resolver reads the world through effectful primitives
(`statSyncNoException`, `existsSync`, `process.env`).  To show resolution
has no hidden mutable state, the same code is embedded once more in explicit
state-passing style: every primitive returns the (possibly updated) world,
and each step threads the world of the previous one.  The theorems show the
threaded run returns the pure value and leaves the world untouched. -/

structure SysState where
  fs : FileSys
  env : SpawnEnv
deriving DecidableEq, Repr

/-- Effectful `statSyncNoException` (and `existsSync`): a read-only query. -/
def statSyncNoExceptionS (file : String) (st : SysState) : Bool × SysState :=
  (statOkay st.fs file, st)

/-- State-threaded PATH-entry loop of `runDownPath`. -/
def searchEntriesS (exe : String) : List String → SysState → Option String × SysState
  | [], st => (none, st)
  | p :: rest, st =>
    let needle := pathJoin (envSep st.env) p exe
    let r := statSyncNoExceptionS needle st
    if r.1 then (some needle, r.2) else searchEntriesS exe rest r.2

/-- State-threaded `runDownPath`. -/
def runDownPathS (exe : String) (st0 : SysState) : String × SysState :=
  if hasPathSep exe then (exe, st0)
  else
    let target := pathJoin (envSep st0.env) "." exe
    let r1 := statSyncNoExceptionS target st0
    if r1.1 then (target, r1.2)
    else
      match r1.2.env.pathVar with
      | none => (exe, r1.2)
      | some s =>
        let r2 := searchEntriesS exe (splitOnChar (pathListSep r1.2.env) s) r1.2
        (r2.1.getD exe, r2.2)

/-- State-threaded extension-probe loop. -/
def probeExtsS (exe : String) : List String → SysState → Option String × SysState
  | [], st => (none, st)
  | ext :: rest, st =>
    let r1 := runDownPathS (exe ++ ext) st
    let r2 := statSyncNoExceptionS r1.1 r1.2
    if r2.1 then (some r1.1, r2.2) else probeExtsS exe rest r2.2

/-- State-threaded win32 branch of `findActualExecutable`. -/
def findActualExecutableWinS : Nat → String → List String → SysState →
    ResolvedCommand × SysState
  | 0, exe, args, st => (dispatchByExtension st.env exe args, st)
  | n + 1, exe, args, st =>
    let r1 := statSyncNoExceptionS exe st
    if r1.1 then (dispatchByExtension r1.2.env exe args, r1.2)
    else
      let r2 := probeExtsS exe [".exe", ".bat", ".cmd", ".ps1"] r1.2
      match r2.1 with
      | some p => findActualExecutableWinS n p args r2.2
      | none => (dispatchByExtension r2.2.env exe args, r2.2)

/-- State-threaded `findActualExecutable`. -/
def findActualExecutableS (exe : String) (args : List String) (st : SysState) :
    ResolvedCommand × SysState :=
  if st.env.isWindows then findActualExecutableWinS 2 exe args st
  else
    let r := runDownPathS exe st
    (⟨r.1, args⟩, r.2)

/-! ## Concrete environments used by witnesses and counterexamples -/

/-- A POSIX environment with an empty PATH variable. -/
def posixEnv : SpawnEnv := ⟨false, none, "C:\\WINDOWS", "/usr/bin/node"⟩

/-- A win32 environment whose PATH holds the single directory C:\bin. -/
def winEnv : SpawnEnv := ⟨true, some "C:\\bin", "C:\\WINDOWS", "node.exe"⟩

/-- A filesystem where only the extensionless file C:\bin\foo exists. -/
def winFs : FileSys := ["C:\\bin\\foo"]

/-! ## Terminal errors built by the engine -/

/-- The SpawnError built at line 518 when the process exits nonzero. -/
def exitSpawnError (code : Int) (cmd : String) (args : List String) : TermErr :=
  .spawnErr ("Process failed with exit code: " ++ toString code) code cmd args none none

/-- The SpawnError built at line 428 when the timeout fires: note it carries
exit code -1. -/
def timeoutSpawnError (tmo : Nat) (cmd : String) (args : List String) : TermErr :=
  .spawnErr ("Process timed out after " ++ toString tmo ++ "ms") (-1) cmd args none none

/-- The plain Error built at line 469 when `opts.stdin` is provided but the
child exposes no writable input channel. -/
def stdinConflictError : TermErr :=
  .genericErr
    "opts.stdio conflicts with provided spawn opts.stdin observable, \x27pipe\x27 is required"

/-! ## Engine trace machine (src/src/index.ts lines 473-522)

One activation of the spawn engine is modelled as a fold over the trace of
asynchronous notifications the launched process delivers: decoded data
chunks, per-channel close events, the process close event with its exit
code, and a launch error.  The state mirrors the closure variables of the
subscribe function: the two AsyncSubject completion flags (initialized to
done when the channel is not piped, mirroring `of(true)` at lines 485/496),
the `noClose` flag, and the subscriber terminal.  `checkPipesDone` embeds
the `merge(stdoutCompleted, stderrCompleted).pipe(reduce(...))` gate at
line 512: the terminal fires only once the exit code has been observed and
both completion flags are set, and an already-terminated subscriber ignores
further signals. -/

structure EngineCfg where
  stdoutPiped : Bool
  stderrPiped : Bool
  cmd : String
  args : List String
deriving DecidableEq, Repr

inductive EngineEvent
  | outData (text : String)
  | errData (text : String)
  | outClose
  | errClose
  | procClose (code : Int)
  | procError (message : String)
deriving DecidableEq, Repr

structure EngineState where
  stdoutDone : Bool
  stderrDone : Bool
  noClose : Bool
  exitCode : Option Int
  emitted : List OutputLine
  terminal : Option Terminal
deriving DecidableEq, Repr

def initEngineState (cfg : EngineCfg) : EngineState :=
  ⟨!cfg.stdoutPiped, !cfg.stderrPiped, false, none, [], none⟩

/-- Terminal outcome chosen by the `close` handler (lines 514-521). -/
def exitTerminal (cfg : EngineCfg) (code : Int) : Terminal :=
  if code = 0 then .completed else .errored (exitSpawnError code cfg.cmd cfg.args)

/-- The pipes-closed gate: once the exit code is known and both channels
have signalled closed, fire the terminal (if none fired yet). -/
def checkPipesDone (cfg : EngineCfg) (s : EngineState) : EngineState :=
  match s.exitCode with
  | none => s
  | some c =>
    if s.stdoutDone && s.stderrDone && s.terminal.isNone then
      { s with terminal := some (exitTerminal cfg c) }
    else s

/-- One engine notification.  Data events model `bufHandler` output on an
open channel (the `b.length < 1` guard drops empty chunks; chunks here are
post-decode, decoding itself is modelled separately); close events set the
channel's AsyncSubject; `procClose` records the code and re-checks the
gate; `procError` terminates immediately, bypassing the gate. -/
def engineStep (cfg : EngineCfg) (s : EngineState) : EngineEvent → EngineState
  | .outData b =>
    if !cfg.stdoutPiped then s
    else if s.terminal.isSome then s
    else if b.length < 1 then s
    else { s with emitted := s.emitted ++ [⟨.stdout, b⟩] }
  | .errData b =>
    if !cfg.stderrPiped then s
    else if s.terminal.isSome then s
    else if b.length < 1 then s
    else { s with emitted := s.emitted ++ [⟨.stderr, b⟩] }
  | .outClose =>
    if !cfg.stdoutPiped then s else checkPipesDone cfg { s with stdoutDone := true }
  | .errClose =>
    if !cfg.stderrPiped then s else checkPipesDone cfg { s with stderrDone := true }
  | .procClose c => checkPipesDone cfg { s with noClose := true, exitCode := some c }
  | .procError m =>
    let s2 := { s with noClose := true }
    if s2.terminal.isSome then s2
    else { s2 with terminal := some (.errored (.genericErr m)) }

def runEngine (cfg : EngineCfg) (t : List EngineEvent) : EngineState :=
  t.foldl (engineStep cfg) (initEngineState cfg)

/-! Trace observations used to state the completion-ordering claim. -/

def isOutCloseEv : EngineEvent → Bool
  | .outClose => true
  | _ => false

def isErrCloseEv : EngineEvent → Bool
  | .errClose => true
  | _ => false

def isProcCloseEv : EngineEvent → Bool
  | .procClose _ => true
  | _ => false

def isProcErrorEv : EngineEvent → Bool
  | .procError _ => true
  | _ => false

def procCloseCode : EngineEvent → Option Int
  | .procClose c => some c
  | _ => none

def hasOutClose (t : List EngineEvent) : Bool := t.any isOutCloseEv

def hasErrClose (t : List EngineEvent) : Bool := t.any isErrCloseEv

def hasProcClose (t : List EngineEvent) : Bool := t.any isProcCloseEv

def hasProcError (t : List EngineEvent) : Bool := t.any isProcErrorEv

def procCodes (t : List EngineEvent) : List Int := t.filterMap procCloseCode

def doneOutSpec (cfg : EngineCfg) (t : List EngineEvent) : Bool :=
  !cfg.stdoutPiped || hasOutClose t

def doneErrSpec (cfg : EngineCfg) (t : List EngineEvent) : Bool :=
  !cfg.stderrPiped || hasErrClose t

def termCondSpec (cfg : EngineCfg) (t : List EngineEvent) : Bool :=
  hasProcError t || (hasProcClose t && doneOutSpec cfg t && doneErrSpec cfg t)

/-! ## Retry decorator (src/src/index.ts lines 551-568)

The decorated stream is modelled over a family of attempt outcomes: each
resubscription of the cold observable is a fresh attempt (re-running
resolution and launching a brand-new process), indexed by attempt number.
`shouldRetry` is the delay callback criterion at line 559: retry exactly
when the error is a SpawnError with nonzero exitCode (rethrow otherwise);
rxjs checks the remaining budget before consulting the callback. -/

def shouldRetry : TermErr → Bool
  | .spawnErr _ c _ _ _ _ => c != 0
  | .genericErr _ => false

inductive AttemptOutcome
  | success (events : List OutputLine)
  | failure (events : List OutputLine) (err : TermErr)
deriving DecidableEq, Repr

/-- Observable behavior of the retried stream: how many subscriptions of
the inner cold observable happened, the waits between them, the events
passed through, and the terminal. -/
structure RetryRun where
  launches : Nat
  delays : List Nat
  events : List OutputLine
  terminal : Terminal
deriving DecidableEq, Repr

def runRetryFrom (f : Nat → AttemptOutcome) (delayMs : Nat) :
    Nat → Nat → RetryRun
  | i, 0 =>
    match f i with
    | .success evs => ⟨1, [], evs, .completed⟩
    | .failure evs e => ⟨1, [], evs, .errored e⟩
  | i, r + 1 =>
    match f i with
    | .success evs => ⟨1, [], evs, .completed⟩
    | .failure evs e =>
      if shouldRetry e then
        let rest := runRetryFrom f delayMs (i + 1) r
        ⟨rest.launches + 1, delayMs :: rest.delays, evs ++ rest.events, rest.terminal⟩
      else ⟨1, [], evs, .errored e⟩

/-- Default retry delay: `opts.retryDelay ?? 1000` (line 553). -/
def effectiveRetryDelay (retryDelay : Option Nat) : Nat := retryDelay.getD 1000

/-- The retried stream for `retries = R` (applied only when R is positive,
line 551): up to R resubscriptions after the initial one. -/
def runRetry (f : Nat → AttemptOutcome) (retries : Nat) (retryDelay : Option Nat) :
    RetryRun :=
  runRetryFrom f (effectiveRetryDelay retryDelay) 0 retries

/-! ## Aggregation adapters (src/src/index.ts lines 573-620) -/

def stdoutConcat (evs : List OutputLine) : String :=
  String.join (evs.filterMap (fun e => if e.source = .stdout then some e.text else none))

def stderrConcat (evs : List OutputLine) : String :=
  String.join (evs.filterMap (fun e => if e.source = .stderr then some e.text else none))

/-- The merged stream as seen by `wrapObservableInPromise`: spawn without
`split` maps every OutputLine to its text (line 570), stderr included. -/
def mergedTexts (evs : List OutputLine) : List String := evs.map (fun e => e.text)

/-- Embedding of `wrapObservableInPromise` (lines 573-593) applied to a
finished stream (its emitted texts in arrival order, then its terminal). -/
def wrapObservableInPromise (texts : List String) : Terminal → Except TermErr String
  | .completed => .ok (String.join texts)
  | .errored (.spawnErr m c cmd args _ se) =>
    .error (.spawnErr (String.join texts ++ "\n" ++ m) c cmd args
      (some (String.join texts)) se)
  | .errored (.genericErr m) => .error (.genericErr (String.join texts ++ "\n" ++ m))

/-- Embedding of `wrapObservableInSplitPromise` (lines 595-620). -/
def wrapObservableInSplitPromise (evs : List OutputLine) :
    Terminal → Except TermErr (String × String)
  | .completed => .ok (stdoutConcat evs, stderrConcat evs)
  | .errored (.spawnErr m c cmd args _ _) =>
    .error (.spawnErr (stdoutConcat evs ++ "\n" ++ m) c cmd args
      (some (stdoutConcat evs)) (some (stderrConcat evs)))
  | .errored (.genericErr m) => .error (.genericErr (stdoutConcat evs ++ "\n" ++ m))

/-- Modelled from the claim C7 wording (refinement reference): the merged
aggregation resolves with the concatenation of the stdout event texts only. -/
def claimedMergedResult (evs : List OutputLine) : String := stdoutConcat evs

/-! ## bufHandler and chunk decoding (src/src/index.ts lines 433-454)

A chunk delivered by a data notification is either a string (stream with an
encoding set), a byte buffer, or a buffer whose `toString` throws (only its
length is then observable; node only throws for results beyond the engine
string-length cap, modelled as its own variant to keep the embedding
total).  Decoders model node Buffer.toString for the relevant encodings;
Lean Char cannot carry lone surrogates, which JS strings can, but the
theorems only depend on decoded lengths and BMP scalar values. -/

inductive NodeEncoding
  | utf8
  | utf16le
  | latin1
deriving DecidableEq, Repr

/-- utf16le code units: consecutive little-endian byte pairs; a trailing
lone byte is dropped (node yields floor(n/2) code units). -/
def u16units : List Nat → List Nat
  | lo :: hi :: rest => (lo + 256 * hi) :: u16units rest
  | _ => []

def decodeUtf16le (b : List Nat) : String :=
  String.mk ((u16units b).map (fun n => Char.ofNat n))

def decodeLatin1 (b : List Nat) : String :=
  String.mk (b.map (fun n => Char.ofNat (n % 256)))

def replacementChar : Char := Char.ofNat 0xFFFD

def isContByte (c : Nat) : Bool := decide (0x80 ≤ c) && decide (c < 0xC0)

/-- One utf8 decode step at a lead byte: the decoded character (replacement
for invalid sequences) and the bytes remaining.  Every step consumes the
lead byte, so decoding always yields at least one character per nonempty
buffer. -/
def utf8Step (b : Nat) (rest : List Nat) : Char × List Nat :=
  if b < 0x80 then (Char.ofNat b, rest)
  else if b < 0xC2 then (replacementChar, rest)
  else if b < 0xE0 then
    match rest with
    | c1 :: rest2 =>
      if isContByte c1 then (Char.ofNat ((b - 0xC0) * 64 + (c1 - 0x80)), rest2)
      else (replacementChar, c1 :: rest2)
    | [] => (replacementChar, [])
  else if b < 0xF0 then
    match rest with
    | c1 :: c2 :: rest2 =>
      if isContByte c1 && isContByte c2 then
        (Char.ofNat ((b - 0xE0) * 4096 + (c1 - 0x80) * 64 + (c2 - 0x80)), rest2)
      else (replacementChar, c1 :: c2 :: rest2)
    | [c1] => (replacementChar, [c1])
    | [] => (replacementChar, [])
  else if b < 0xF5 then
    match rest with
    | c1 :: c2 :: c3 :: rest2 =>
      if isContByte c1 && isContByte c2 && isContByte c3 then
        (Char.ofNat ((b - 0xF0) * 262144 + (c1 - 0x80) * 4096 + (c2 - 0x80) * 64
          + (c3 - 0x80)), rest2)
      else (replacementChar, c1 :: c2 :: c3 :: rest2)
    | [c1, c2] => (replacementChar, [c1, c2])
    | [c1] => (replacementChar, [c1])
    | [] => (replacementChar, [])
  else (replacementChar, rest)

/-- utf8 decoding with replacement characters for invalid sequences. -/
def utf8Chars : List Nat → List Char
  | [] => []
  | b :: rest => (utf8Step b rest).1 :: utf8Chars (utf8Step b rest).2
termination_by l => l.length
decreasing_by
  simp only [List.length_cons]
  have hle : (utf8Step b rest).2.length ≤ rest.length := by
    unfold utf8Step
    repeat' split
    all_goals simp_all
    all_goals omega
  omega

def decodeUtf8 (b : List Nat) : String := String.mk (utf8Chars b)

def bufDecode : NodeEncoding → List Nat → String
  | .utf8, b => decodeUtf8 b
  | .utf16le, b => decodeUtf16le b
  | .latin1, b => decodeLatin1 b

inductive Chunk
  | strChunk (s : String)
  | bufChunk (bytes : List Nat)
  | undecodableChunk (len : Nat)
deriving DecidableEq, Repr

def chunkLength : Chunk → Nat
  | .strChunk s => s.length
  | .bufChunk bytes => bytes.length
  | .undecodableChunk len => len

/-- The placeholder substituted when decoding throws (line 450). -/
def lostChunkPlaceholder (exe : String) (len : Nat) : String :=
  "<< Lost chunk of process output for " ++ exe ++ " - length was " ++ toString len ++ ">>"

/-- Embedding of `bufHandler` (lines 433-454): drop chunks of length below
one before anything else (echo included); echo to the current process
stdio when `echoOutput` is set; decode with the configured encoding
(default utf8) or take the string as is; substitute the placeholder when
decoding throws.  Returns the emitted event (if any) and whether the chunk
was echoed. -/
def bufHandler (exe : String) (encoding : Option NodeEncoding) (echoOutput : Bool)
    (source : Src) (b : Chunk) : Option OutputLine × Bool :=
  if chunkLength b < 1 then (none, false)
  else
    let text :=
      match b with
      | .strChunk s => s
      | .bufChunk bytes => bufDecode (encoding.getD .utf8) bytes
      | .undecodableChunk len => lostChunkPlaceholder exe len
    (some ⟨source, text⟩, echoOutput)

/-! ## Subscription world (src/src/index.ts lines 404-546)

The observable returned by `spawn` is built with the plain `Observable`
constructor and no multicast operator is applied before returning it
(line 548-570), so every subscription runs the subscribe function afresh:
it launches a process (line 410) and returns a teardown Subscription.  Per
rxjs semantics the returned teardown is finalized when the subscription
ends for any reason: explicit unsubscribe, completion, or error — in the
synchronous-error case (stdin conflict, line 469) the subscriber is already
closed when the subscribe function returns, so adding the returned teardown
executes it immediately, and with `noClose` still false it kills the child
(lines 524-543).  The world counts launches (fresh pid per launch) and the
kill requests issued. -/

structure ProcWorld where
  launchCount : Nat
  killRequests : List Nat
deriving DecidableEq, Repr

structure SpawnScenario where
  hasStdinOpt : Bool
  childStdinAvailable : Bool
deriving DecidableEq, Repr

structure SubHandle where
  procId : Nat
  noClose : Bool
  closed : Bool
deriving DecidableEq, Repr

structure SubscribeResult where
  world : ProcWorld
  sub : SubHandle
  terminalNow : Option TermErr
deriving DecidableEq, Repr

/-- Constructing the stream (the body of `spawn` before the Observable
closure runs) performs no effect: no process is launched at construction. -/
def mkSpawnStream (w : ProcWorld) : ProcWorld × Unit := (w, ())

/-- One subscription to the spawn observable: the subscribe function runs,
launching a fresh process; on stdin conflict the subscriber errors
synchronously and the teardown finalization kills the just-launched child
(noClose is still false). -/
def spawnSubscribe (sc : SpawnScenario) (w : ProcWorld) : SubscribeResult :=
  let procId := w.launchCount
  let w1 : ProcWorld := { w with launchCount := w.launchCount + 1 }
  if sc.hasStdinOpt && !sc.childStdinAvailable then
    ⟨{ w1 with killRequests := w1.killRequests ++ [procId] },
      ⟨procId, false, true⟩, some stdinConflictError⟩
  else ⟨w1, ⟨procId, false, false⟩, none⟩

/-- The close/error handlers of the process set `noClose` (lines 500, 508)
before the subscriber terminates, so a later teardown run skips the kill. -/
def notifyNaturalClose (s : SubHandle) : SubHandle := { s with noClose := true }

/-- Finalizing a subscription: a second finalization is a no-op (rxjs
Subscription runs finalizers once); the teardown at lines 524-543 returns
without killing when `noClose` is set, else issues one kill request for its
own process. -/
def unsubscribeSub (s : SubHandle) (w : ProcWorld) : SubHandle × ProcWorld :=
  if s.closed then (s, w)
  else if s.noClose then ({ s with closed := true }, w)
  else ({ s with closed := true },
    { w with killRequests := w.killRequests ++ [s.procId] })

/-- A scenario with no stdin option configured. -/
def plainScenario : SpawnScenario := ⟨false, true⟩

/-- Substring test on character lists: does n occur contiguously in h. -/
def listContainsSub : List Char → List Char → Bool
  | [], n => n.isPrefixOf []
  | x :: t, n => n.isPrefixOf (x :: t) || listContainsSub t n

/-- Substring test on strings (used to state message-containment). -/
def strContainsSub (h n : String) : Bool := listContainsSub h.data n.data

/-! ## Concrete instances used by witnesses and counterexamples -/

/-- Concrete configuration for the completion-ordering witness. -/
def c3Cfg : EngineCfg := ⟨true, true, "ls", ["-r"]⟩

/-- Concrete natural-exit trace: a chunk, process exit 0, then both pipe
closures (trailing output order included). -/
def c3Trace : List EngineEvent :=
  [EngineEvent.outData "a", EngineEvent.procClose 0, EngineEvent.errClose,
    EngineEvent.outClose]

/-- Attempt family of a command that always exits with code 1. -/
def alwaysFailAttempts : Nat → AttemptOutcome :=
  fun _ => .failure [] (exitSpawnError 1 "false" [])

/-- Attempt family of a run that always times out (SpawnError, code -1). -/
def timeoutFailAttempts : Nat → AttemptOutcome :=
  fun _ => .failure [] (timeoutSpawnError 50 "sleep" ["10"])

/-- Attempt family of a run whose launch always fails with a plain Error. -/
def genericFailAttempts : Nat → AttemptOutcome :=
  fun _ => .failure [] (.genericErr "spawn ENOENT")

/-! ## Helper lemmas about the probe -/

theorem probeAux_exists (fs : FileSys) (env : SpawnEnv) (exe : String) :
    ∀ (exts : List String) (p : String),
      (exts.findSome? (fun ext =>
        let possibleFullPath := runDownPath fs env (exe ++ ext)
        if statOkay fs possibleFullPath then some possibleFullPath else none))
        = some p →
      statOkay fs p = true := by
  intro exts
  induction exts with
  | nil => intro p h; simp at h
  | cons a t ih =>
    intro p h
    rw [List.findSome?_cons] at h
    by_cases hq : statOkay fs (runDownPath fs env (exe ++ a)) = true
    · simp only [hq, if_true] at h
      cases h
      exact hq
    · rw [Bool.not_eq_true] at hq
      simp only [hq, Bool.false_eq_true, if_false] at h
      exact ih p h

theorem extensionProbe_exists {fs : FileSys} {env : SpawnEnv} {exe p : String}
    (h : extensionProbe fs env exe = some p) : statOkay fs p = true :=
  probeAux_exists fs env exe _ p h

/-- Single-step equation of the win32 resolver at positive fuel. -/
theorem findActualExecutableWin_succ (fs : FileSys) (env : SpawnEnv)
    (n : Nat) (exe : String) (args : List String) :
    findActualExecutableWin fs env (n + 1) exe args
      = (if statOkay fs exe then dispatchByExtension env exe args
         else
           match extensionProbe fs env exe with
           | some p => findActualExecutableWin fs env n p args
           | none => dispatchByExtension env exe args) := by
  rw [findActualExecutableWin]

theorem findActualExecutableWin_of_exists (fs : FileSys) (env : SpawnEnv)
    (p : String) (args : List String) (hp : statOkay fs p = true) :
    ∀ n : Nat, findActualExecutableWin fs env (n + 1) p args
      = dispatchByExtension env p args := by
  intro n
  rw [findActualExecutableWin_succ, hp]
  simp only [if_true]

/-- One unfolding of the win32 resolver: with any positive recursion budget
the result is the closed form, so the self-call depth is at most 1. -/
theorem findActualExecutableWin_fuel (fs : FileSys) (env : SpawnEnv)
    (exe : String) (args : List String) :
    ∀ n : Nat, findActualExecutableWin fs env (n + 1) exe args
      = (if statOkay fs exe then dispatchByExtension env exe args
         else
           match extensionProbe fs env exe with
           | some p => dispatchByExtension env p args
           | none => dispatchByExtension env exe args) := by
  intro n
  rw [findActualExecutableWin_succ]
  rcases hst : statOkay fs exe with _ | _
  · simp only [Bool.false_eq_true, if_false]
    rcases hp : extensionProbe fs env exe with _ | p
    · rfl
    · have hex := extensionProbe_exists hp
      cases n with
      | zero => rfl
      | succ m => exact findActualExecutableWin_of_exists fs env p args hex m
  · simp

/-! ## State-threaded resolver agrees with the pure embedding -/

theorem searchEntriesS_spec (exe : String) :
    ∀ (l : List String) (st : SysState),
      searchEntriesS exe l st = (searchEntries st.fs st.env l exe, st) := by
  intro l
  induction l with
  | nil => intro st; rfl
  | cons p t ih =>
    intro st
    rw [searchEntriesS, searchEntries, List.findSome?_cons]
    by_cases h : statOkay st.fs (pathJoin (envSep st.env) p exe) = true
    · simp only [statSyncNoExceptionS, h, if_true]
    · rw [Bool.not_eq_true] at h
      simp only [statSyncNoExceptionS, h, Bool.false_eq_true, if_false]
      rw [ih st, searchEntries]

theorem runDownPathS_spec (exe : String) (st : SysState) :
    runDownPathS exe st = (runDownPath st.fs st.env exe, st) := by
  rw [runDownPathS, runDownPath]
  by_cases h1 : hasPathSep exe = true
  · simp only [h1, if_true]
  · rw [Bool.not_eq_true] at h1
    simp only [h1, Bool.false_eq_true, if_false, statSyncNoExceptionS]
    by_cases h2 : statOkay st.fs (pathJoin (envSep st.env) "." exe) = true
    · simp only [h2, if_true]
    · rw [Bool.not_eq_true] at h2
      simp only [h2, Bool.false_eq_true, if_false]
      cases hp : st.env.pathVar with
      | none => rfl
      | some s =>
        simp only [searchEntriesS_spec]
        cases hs : searchEntries st.fs st.env (splitOnChar (pathListSep st.env) s) exe <;>
          simp [hs]

theorem probeExtsS_spec (exe : String) :
    ∀ (exts : List String) (st : SysState),
      probeExtsS exe exts st
        = (exts.findSome? (fun ext =>
            let possibleFullPath := runDownPath st.fs st.env (exe ++ ext)
            if statOkay st.fs possibleFullPath then some possibleFullPath else none),
           st) := by
  intro exts
  induction exts with
  | nil => intro st; rfl
  | cons e t ih =>
    intro st
    rw [probeExtsS, List.findSome?_cons, runDownPathS_spec]
    by_cases h : statOkay st.fs (runDownPath st.fs st.env (exe ++ e)) = true
    · simp only [statSyncNoExceptionS, h, if_true]
    · rw [Bool.not_eq_true] at h
      simp only [statSyncNoExceptionS, h, Bool.false_eq_true, if_false]
      exact ih st

theorem findActualExecutableWinS_spec :
    ∀ (n : Nat) (exe : String) (args : List String) (st : SysState),
      findActualExecutableWinS n exe args st
        = (findActualExecutableWin st.fs st.env n exe args, st) := by
  intro n
  induction n with
  | zero => intro exe args st; rfl
  | succ m ih =>
    intro exe args st
    rw [findActualExecutableWinS, findActualExecutableWin]
    by_cases h : statOkay st.fs exe = true
    · simp only [statSyncNoExceptionS, h, if_true]
    · rw [Bool.not_eq_true] at h
      simp only [statSyncNoExceptionS, h, Bool.false_eq_true, if_false, probeExtsS_spec]
      have hpr : extensionProbe st.fs st.env exe
          = [".exe", ".bat", ".cmd", ".ps1"].findSome? (fun ext =>
              let possibleFullPath := runDownPath st.fs st.env (exe ++ ext)
              if statOkay st.fs possibleFullPath then some possibleFullPath else none) := rfl
    
      rw [← hpr]
      cases hp : extensionProbe st.fs st.env exe with
      | none => rfl
      | some p => exact ih p args st

theorem findActualExecutableS_spec (exe : String) (args : List String) (st : SysState) :
    findActualExecutableS exe args st = (findActualExecutable st.fs st.env exe args, st) := by
  rw [findActualExecutableS, findActualExecutable]
  by_cases h : st.env.isWindows = true
  · simp only [h, if_true, findActualExecutableWinS_spec]
  · rw [Bool.not_eq_true] at h
    simp only [h, Bool.false_eq_true, if_false, runDownPathS_spec]

/-! ## Claim C9 -/

/-- C9: resolution is deterministic and stateless.  Running the
state-threaded resolver returns the pure resolution value, leaves the world
unchanged, and running it a second time from the post-state yields the
identical value-and-state pair: no hidden mutable state influences the
result. -/
theorem resolution_deterministic (st : SysState) (exe : String) (args : List String) :
    (findActualExecutableS exe args st).1 = findActualExecutable st.fs st.env exe args
    ∧ (findActualExecutableS exe args st).2 = st
    ∧ findActualExecutableS exe args ((findActualExecutableS exe args st).2)
        = findActualExecutableS exe args st := by
  rw [findActualExecutableS_spec]
  exact ⟨rfl, rfl, findActualExecutableS_spec exe args st⟩

/-! ## Claim C5 -/

/-- C5 counterexample: the claimed reference algorithm (PATH search plus
extension dispatch on every platform) disagrees with the code.  On POSIX a
`.ps1` name is passed through unchanged (no script-host dispatch), and on
win32 a bare name that exists only extensionless in a PATH directory is not
PATH-searched at all. -/
theorem resolution_reference_algorithm_counterexample :
    findActualExecutable [] posixEnv "script.ps1" []
        ≠ claimedResolve [] posixEnv "script.ps1" []
    ∧ findActualExecutable winFs winEnv "foo" []
        ≠ claimedResolve winFs winEnv "foo" []
    ∧ findActualExecutable [] posixEnv "script.ps1" [] = ⟨"script.ps1", []⟩
    ∧ findActualExecutable winFs winEnv "foo" [] = ⟨"foo", []⟩
    ∧ claimedResolve winFs winEnv "foo" [] = ⟨"C:\\bin\\foo", []⟩ := by
  refine ⟨by decide, by decide, by decide, by decide, by decide⟩

/-- C5 amended: resolution never fails and equals the closed form: on POSIX
the PATH search runs and its result is passed through with the args
unchanged (no extension dispatch); on win32, when the name does not exist as
given, the PATH search is applied only to the extension-appended candidates
(.exe, .bat, .cmd, .ps1 in order) and extension dispatch maps the resulting
path (.ps1 to PowerShell with the fixed flags, .bat/.cmd to cmd.exe /C,
.js to the runtime executable, anything else unchanged). -/
theorem resolution_amended_algorithm (fs : FileSys) (env : SpawnEnv)
    (exe : String) (args : List String) :
    findActualExecutable fs env exe args = amendedResolve fs env exe args := by
  rw [findActualExecutable, amendedResolve]
  by_cases h : env.isWindows = true
  · simp only [h, if_true]
    exact findActualExecutableWin_fuel fs env exe args 1
  · rw [Bool.not_eq_true] at h
    simp only [h, Bool.false_eq_true, if_false]

/-! ## Claim C8 -/

/-- C8: the self-recursion of `findActualExecutable` has depth bounded
to 1.  A candidate found by the extension probe exists on disk, so
re-resolving it takes the exists-branch straight to dispatch and never
enters the extension-search loop again; consequently the result is
independent of any positive recursion budget and resolution terminates. -/
theorem resolution_recursion_depth_bounded (fs : FileSys) (env : SpawnEnv)
    (exe : String) (args : List String) :
    (∀ p, extensionProbe fs env exe = some p →
      ∀ n : Nat, findActualExecutableWin fs env (n + 1) p args
        = dispatchByExtension env p args)
    ∧ (∀ n : Nat, findActualExecutableWin fs env (n + 1) exe args
        = findActualExecutableWin fs env 1 exe args) := by
  constructor
  · intro p hp n
    exact findActualExecutableWin_of_exists fs env p args (extensionProbe_exists hp) n
  · intro n
    rw [findActualExecutableWin_fuel fs env exe args n,
      findActualExecutableWin_fuel fs env exe args 0]

/-- C8 witness: a concrete win32 world where the probe finds foo.cmd; the
bounded-recursion theorem applies and evaluates there. -/
theorem resolution_recursion_depth_bounded_witness :
    extensionProbe ["foo.cmd"] winEnv "foo" = some "foo.cmd"
    ∧ findActualExecutableWin ["foo.cmd"] winEnv 5 "foo.cmd" []
        = dispatchByExtension winEnv "foo.cmd" []
    ∧ findActualExecutableWin ["foo.cmd"] winEnv 7 "foo" []
        = findActualExecutableWin ["foo.cmd"] winEnv 1 "foo" [] :=
  ⟨by decide,
   (resolution_recursion_depth_bounded ["foo.cmd"] winEnv "foo" []).1 "foo.cmd"
     (by decide) 4,
   (resolution_recursion_depth_bounded ["foo.cmd"] winEnv "foo" []).2 6⟩

/-! ## Engine trace machine: invariants -/

theorem runEngine_append (cfg : EngineCfg) (t : List EngineEvent) (e : EngineEvent) :
    runEngine cfg (t ++ [e]) = engineStep cfg (runEngine cfg t) e := by
  rw [runEngine, runEngine, List.foldl_append]
  rfl

theorem checkPipesDone_fields (cfg : EngineCfg) (s : EngineState) :
    (checkPipesDone cfg s).stdoutDone = s.stdoutDone
    ∧ (checkPipesDone cfg s).stderrDone = s.stderrDone
    ∧ (checkPipesDone cfg s).noClose = s.noClose
    ∧ (checkPipesDone cfg s).exitCode = s.exitCode
    ∧ (checkPipesDone cfg s).emitted = s.emitted := by
  unfold checkPipesDone
  rcases hc : s.exitCode with _ | c
  · simp [hc]
  · simp only [hc]
    split <;> simp [hc]

theorem checkPipesDone_terminal_isSome (cfg : EngineCfg) (s : EngineState) :
    (checkPipesDone cfg s).terminal.isSome
      = (s.terminal.isSome || (s.exitCode.isSome && s.stdoutDone && s.stderrDone)) := by
  unfold checkPipesDone
  rcases hc : s.exitCode with _ | c
  · simp
  · rcases ht : s.terminal with _ | v <;>
      rcases hsd : s.stdoutDone with _ | _ <;>
      rcases hse : s.stderrDone with _ | _ <;>
      simp_all

theorem procCodes_append (t : List EngineEvent) (e : EngineEvent) :
    procCodes (t ++ [e]) = procCodes t ++ (procCloseCode e).toList := by
  simp [procCodes, List.filterMap_append]
  rfl

theorem procCodes_getLast_isSome (t : List EngineEvent) :
    (procCodes t).getLast?.isSome = hasProcClose t := by
  induction t using List.reverseRecOn with
  | nil => simp [procCodes, hasProcClose]
  | append_singleton t2 e2 ih =>
    rw [procCodes_append]
    cases e2 <;>
      simp_all [procCloseCode, hasProcClose, isProcCloseEv, List.getLast?_concat]

theorem engine_scalars (cfg : EngineCfg) (t : List EngineEvent) :
    (runEngine cfg t).stdoutDone = doneOutSpec cfg t
    ∧ (runEngine cfg t).stderrDone = doneErrSpec cfg t
    ∧ (runEngine cfg t).noClose = (hasProcClose t || hasProcError t)
    ∧ (runEngine cfg t).exitCode = (procCodes t).getLast?
    ∧ (runEngine cfg t).terminal.isSome = termCondSpec cfg t := by
  induction t using List.reverseRecOn with
  | nil =>
    refine ⟨?_, ?_, ?_, ?_, ?_⟩ <;>
      simp [runEngine, initEngineState, doneOutSpec, doneErrSpec, termCondSpec,
        hasOutClose, hasErrClose, hasProcClose, hasProcError, procCodes]
  | append_singleton t e ih =>
    obtain ⟨ih1, ih2, ih3, ih4, ih5⟩ := ih
    have hex : (runEngine cfg t).exitCode.isSome = hasProcClose t := by
      rw [ih4, procCodes_getLast_isSome]
    rw [runEngine_append]
    have hfields := checkPipesDone_fields cfg
    cases e with
    | outData b =>
      have hA : hasOutClose (t ++ [EngineEvent.outData b]) = hasOutClose t := by
        simp [hasOutClose, isOutCloseEv]
      have hB : hasErrClose (t ++ [EngineEvent.outData b]) = hasErrClose t := by
        simp [hasErrClose, isErrCloseEv]
      have hC : hasProcClose (t ++ [EngineEvent.outData b]) = hasProcClose t := by
        simp [hasProcClose, isProcCloseEv]
      have hD : hasProcError (t ++ [EngineEvent.outData b]) = hasProcError t := by
        simp [hasProcError, isProcErrorEv]
      have hE : procCodes (t ++ [EngineEvent.outData b]) = procCodes t := by
        rw [procCodes_append]; simp [procCloseCode]
      refine ⟨?_, ?_, ?_, ?_, ?_⟩ <;>
        · simp only [engineStep]
          split_ifs <;>
            simp_all [doneOutSpec, doneErrSpec, termCondSpec]
    | errData b =>
      have hA : hasOutClose (t ++ [EngineEvent.errData b]) = hasOutClose t := by
        simp [hasOutClose, isOutCloseEv]
      have hB : hasErrClose (t ++ [EngineEvent.errData b]) = hasErrClose t := by
        simp [hasErrClose, isErrCloseEv]
      have hC : hasProcClose (t ++ [EngineEvent.errData b]) = hasProcClose t := by
        simp [hasProcClose, isProcCloseEv]
      have hD : hasProcError (t ++ [EngineEvent.errData b]) = hasProcError t := by
        simp [hasProcError, isProcErrorEv]
      have hE : procCodes (t ++ [EngineEvent.errData b]) = procCodes t := by
        rw [procCodes_append]; simp [procCloseCode]
      refine ⟨?_, ?_, ?_, ?_, ?_⟩ <;>
        · simp only [engineStep]
          split_ifs <;>
            simp_all [doneOutSpec, doneErrSpec, termCondSpec]
    | outClose =>
      have hA : hasOutClose (t ++ [EngineEvent.outClose]) = true := by
        simp [hasOutClose, isOutCloseEv]
      have hB : hasErrClose (t ++ [EngineEvent.outClose]) = hasErrClose t := by
        simp [hasErrClose, isErrCloseEv]
      have hC : hasProcClose (t ++ [EngineEvent.outClose]) = hasProcClose t := by
        simp [hasProcClose, isProcCloseEv]
      have hD : hasProcError (t ++ [EngineEvent.outClose]) = hasProcError t := by
        simp [hasProcError, isProcErrorEv]
      have hE : procCodes (t ++ [EngineEvent.outClose]) = procCodes t := by
        rw [procCodes_append]; simp [procCloseCode]
      have hf1 := fun s => (hfields s).1
      have hf2 := fun s => (hfields s).2.1
      have hf3 := fun s => (hfields s).2.2.1
      have hf4 := fun s => (hfields s).2.2.2.1
      simp only [engineStep]
      by_cases hpip : cfg.stdoutPiped = true
      · simp only [hpip, Bool.not_true, Bool.false_eq_true, if_false]
        refine ⟨?_, ?_, ?_, ?_, ?_⟩
        · simp [hf1, doneOutSpec, hA]
        · simp [hf2, doneErrSpec, hB, ih2]
        · simp [hf3, hC, hD, ih3]
        · simp [hf4, hE, ih4]
        · rw [checkPipesDone_terminal_isSome]
          show ((runEngine cfg t).terminal.isSome
              || ((runEngine cfg t).exitCode.isSome && true
                    && (runEngine cfg t).stderrDone))
            = _
          rw [ih5, hex, ih2]
          simp only [termCondSpec, doneOutSpec, doneErrSpec, hA, hB, hC, hD, hpip]
          cases hasProcError t <;> cases hasProcClose t <;>
            cases hasOutClose t <;> cases hasErrClose t <;>
            cases cfg.stderrPiped <;> simp
      · rw [Bool.not_eq_true] at hpip
        simp only [hpip, Bool.not_false, if_true]
        refine ⟨?_, ?_, ?_, ?_, ?_⟩ <;>
          simp [ih1, ih2, ih3, ih4, ih5, doneOutSpec, doneErrSpec, termCondSpec,
            hA, hB, hC, hD, hE, hpip]
    | errClose =>
      have hA : hasOutClose (t ++ [EngineEvent.errClose]) = hasOutClose t := by
        simp [hasOutClose, isOutCloseEv]
      have hB : hasErrClose (t ++ [EngineEvent.errClose]) = true := by
        simp [hasErrClose, isErrCloseEv]
      have hC : hasProcClose (t ++ [EngineEvent.errClose]) = hasProcClose t := by
        simp [hasProcClose, isProcCloseEv]
      have hD : hasProcError (t ++ [EngineEvent.errClose]) = hasProcError t := by
        simp [hasProcError, isProcErrorEv]
      have hE : procCodes (t ++ [EngineEvent.errClose]) = procCodes t := by
        rw [procCodes_append]; simp [procCloseCode]
      have hf1 := fun s => (hfields s).1
      have hf2 := fun s => (hfields s).2.1
      have hf3 := fun s => (hfields s).2.2.1
      have hf4 := fun s => (hfields s).2.2.2.1
      simp only [engineStep]
      by_cases hpip : cfg.stderrPiped = true
      · simp only [hpip, Bool.not_true, Bool.false_eq_true, if_false]
        refine ⟨?_, ?_, ?_, ?_, ?_⟩
        · simp [hf1, doneOutSpec, hA, ih1]
        · simp [hf2, doneErrSpec, hB]
        · simp [hf3, hC, hD, ih3]
        · simp [hf4, hE, ih4]
        · rw [checkPipesDone_terminal_isSome]
          show ((runEngine cfg t).terminal.isSome
              || ((runEngine cfg t).exitCode.isSome
                    && (runEngine cfg t).stdoutDone && true))
            = _
          rw [ih5, hex, ih1]
          simp only [termCondSpec, doneOutSpec, doneErrSpec, hA, hB, hC, hD, hpip]
          cases hasProcError t <;> cases hasProcClose t <;>
            cases hasOutClose t <;> cases hasErrClose t <;>
            cases cfg.stdoutPiped <;> simp
      · rw [Bool.not_eq_true] at hpip
        simp only [hpip, Bool.not_false, if_true]
        refine ⟨?_, ?_, ?_, ?_, ?_⟩ <;>
          simp [ih1, ih2, ih3, ih4, ih5, doneOutSpec, doneErrSpec, termCondSpec,
            hA, hB, hC, hD, hE, hpip]
    | procClose c =>
      have hA : hasOutClose (t ++ [EngineEvent.procClose c]) = hasOutClose t := by
        simp [hasOutClose, isOutCloseEv]
      have hB : hasErrClose (t ++ [EngineEvent.procClose c]) = hasErrClose t := by
        simp [hasErrClose, isErrCloseEv]
      have hC : hasProcClose (t ++ [EngineEvent.procClose c]) = true := by
        simp [hasProcClose, isProcCloseEv]
      have hD : hasProcError (t ++ [EngineEvent.procClose c]) = hasProcError t := by
        simp [hasProcError, isProcErrorEv]
      have hE : procCodes (t ++ [EngineEvent.procClose c]) = procCodes t ++ [c] := by
        rw [procCodes_append]; rfl
      have hf1 := fun s => (hfields s).1
      have hf2 := fun s => (hfields s).2.1
      have hf3 := fun s => (hfields s).2.2.1
      have hf4 := fun s => (hfields s).2.2.2.1
      simp only [engineStep]
      refine ⟨?_, ?_, ?_, ?_, ?_⟩
      · simp [hf1, doneOutSpec, hA, ih1]
      · simp [hf2, doneErrSpec, hB, ih2]
      · simp [hf3, hC]
      · simp [hf4, hE, List.getLast?_concat]
      · rw [checkPipesDone_terminal_isSome]
        show ((runEngine cfg t).terminal.isSome
            || ((some c).isSome && (runEngine cfg t).stdoutDone
                  && (runEngine cfg t).stderrDone))
          = _
        rw [ih5, ih1, ih2]
        simp only [termCondSpec, doneOutSpec, doneErrSpec, hA, hB, hC, hD,
          Option.isSome_some, Bool.true_and]
        cases hasProcError t <;> cases hasProcClose t <;>
          cases cfg.stdoutPiped <;> cases cfg.stderrPiped <;>
          cases hasOutClose t <;> cases hasErrClose t <;> simp
    | procError m =>
      have hA : hasOutClose (t ++ [EngineEvent.procError m]) = hasOutClose t := by
        simp [hasOutClose, isOutCloseEv]
      have hB : hasErrClose (t ++ [EngineEvent.procError m]) = hasErrClose t := by
        simp [hasErrClose, isErrCloseEv]
      have hC : hasProcClose (t ++ [EngineEvent.procError m]) = hasProcClose t := by
        simp [hasProcClose, isProcCloseEv]
      have hD : hasProcError (t ++ [EngineEvent.procError m]) = true := by
        simp [hasProcError, isProcErrorEv]
      have hE : procCodes (t ++ [EngineEvent.procError m]) = procCodes t := by
        rw [procCodes_append]; simp [procCloseCode]
      simp only [engineStep]
      split_ifs with hterm
      · refine ⟨?_, ?_, ?_, ?_, ?_⟩ <;>
          simp_all [doneOutSpec, doneErrSpec, termCondSpec]
      · refine ⟨?_, ?_, ?_, ?_, ?_⟩ <;>
          simp_all [doneOutSpec, doneErrSpec, termCondSpec]

theorem hasOutClose_append (t : List EngineEvent) (e : EngineEvent) :
    hasOutClose (t ++ [e]) = (hasOutClose t || isOutCloseEv e) := by
  simp [hasOutClose, List.any_append]

theorem hasErrClose_append (t : List EngineEvent) (e : EngineEvent) :
    hasErrClose (t ++ [e]) = (hasErrClose t || isErrCloseEv e) := by
  simp [hasErrClose, List.any_append]

theorem hasProcClose_append (t : List EngineEvent) (e : EngineEvent) :
    hasProcClose (t ++ [e]) = (hasProcClose t || isProcCloseEv e) := by
  simp [hasProcClose, List.any_append]

theorem hasProcError_append (t : List EngineEvent) (e : EngineEvent) :
    hasProcError (t ++ [e]) = (hasProcError t || isProcErrorEv e) := by
  simp [hasProcError, List.any_append]

theorem checkPipesDone_terminal_eq (cfg : EngineCfg) (s : EngineState) :
    (checkPipesDone cfg s).terminal
      = (match s.exitCode with
         | none => s.terminal
         | some c =>
           if s.stdoutDone && s.stderrDone && s.terminal.isNone then
             some (exitTerminal cfg c)
           else s.terminal) := by
  unfold checkPipesDone
  rcases hc : s.exitCode with _ | c
  · simp only [hc]
  · simp only [hc]
    split <;> rfl

theorem mem_of_getLast_eq_some {l : List Int} {a : Int} (h : l.getLast? = some a) :
    a ∈ l := by
  have h2 : a ∈ l.getLast? := Option.mem_def.mpr h
  obtain ⟨hne, ha⟩ := List.mem_getLast?_eq_getLast h2
  rw [ha]
  exact List.getLast_mem hne

theorem engine_terminal_value (cfg : EngineCfg) (c : Int) :
    ∀ t : List EngineEvent, hasProcError t = false →
      (∀ c0 ∈ procCodes t, c0 = c) →
      (runEngine cfg t).terminal
        = (if termCondSpec cfg t = true then some (exitTerminal cfg c) else none) := by
  intro t
  induction t using List.reverseRecOn with
  | nil =>
    intro _ _
    simp [runEngine, initEngineState, termCondSpec, hasProcClose, hasProcError]
  | append_singleton t e ih =>
    intro hne hcodes
    have hneT : hasProcError t = false := by
      rw [hasProcError_append] at hne
      exact (Bool.or_eq_false_iff.mp hne).1
    have hcodesT : ∀ c0 ∈ procCodes t, c0 = c := by
      intro c0 hc0
      apply hcodes
      rw [procCodes_append]
      exact List.mem_append_left _ hc0
    have ht := ih hneT hcodesT
    obtain ⟨s1, s2, s3, s4, s5⟩ := engine_scalars cfg t
    have hexSome : (runEngine cfg t).exitCode.isSome = hasProcClose t := by
      rw [s4, procCodes_getLast_isSome]
    rw [runEngine_append]
    cases e with
    | outData b =>
      have hterm : (engineStep cfg (runEngine cfg t) (EngineEvent.outData b)).terminal
          = (runEngine cfg t).terminal := by
        simp only [engineStep]
        split_ifs <;> rfl
      have hcond : termCondSpec cfg (t ++ [EngineEvent.outData b]) = termCondSpec cfg t := by
        simp [termCondSpec, doneOutSpec, doneErrSpec, hasOutClose_append,
          hasErrClose_append, hasProcClose_append, hasProcError_append,
          isOutCloseEv, isErrCloseEv, isProcCloseEv, isProcErrorEv]
      rw [hterm, ht, hcond]
    | errData b =>
      have hterm : (engineStep cfg (runEngine cfg t) (EngineEvent.errData b)).terminal
          = (runEngine cfg t).terminal := by
        simp only [engineStep]
        split_ifs <;> rfl
      have hcond : termCondSpec cfg (t ++ [EngineEvent.errData b]) = termCondSpec cfg t := by
        simp [termCondSpec, doneOutSpec, doneErrSpec, hasOutClose_append,
          hasErrClose_append, hasProcClose_append, hasProcError_append,
          isOutCloseEv, isErrCloseEv, isProcCloseEv, isProcErrorEv]
      rw [hterm, ht, hcond]
    | outClose =>
      simp only [engineStep]
      by_cases hpip : cfg.stdoutPiped = true
      · simp only [hpip, Bool.not_true, Bool.false_eq_true, if_false]
        rw [checkPipesDone_terminal_eq]
        rcases hgl : (runEngine cfg t).exitCode with _ | c0
        · have hpc : hasProcClose t = false := by
            rw [← hexSome, hgl]
            rfl
          have hcondA : termCondSpec cfg (t ++ [EngineEvent.outClose]) = false := by
            simp [termCondSpec, hasProcClose_append, hasProcError_append,
              isProcCloseEv, isProcErrorEv, hpc, hneT]
          have hcondT : termCondSpec cfg t = false := by
            simp [termCondSpec, hpc, hneT]
          rw [hcondT] at ht
          simp only [hgl, hcondA, Bool.false_eq_true, if_false]
          simpa using ht
        · have hc0 : c0 = c := by
            apply hcodesT
            rw [s4] at hgl
            exact mem_of_getLast_eq_some hgl
          subst hc0
          have hpc : hasProcClose t = true := by
            rw [← hexSome, hgl]
            rfl
          have hcondA : termCondSpec cfg (t ++ [EngineEvent.outClose])
              = doneErrSpec cfg t := by
            simp [termCondSpec, doneOutSpec, doneErrSpec, hasOutClose_append,
              hasErrClose_append, hasProcClose_append, hasProcError_append,
              isOutCloseEv, isErrCloseEv, isProcCloseEv, isProcErrorEv,
              hpc, hneT, hpip]
          have hcondT : termCondSpec cfg t
              = (doneOutSpec cfg t && doneErrSpec cfg t) := by
            simp [termCondSpec, hpc, hneT]
          rw [hcondT] at ht
          rw [hcondA]
          simp only [hgl]
          rw [ht, s2]
          cases hdO : doneOutSpec cfg t <;> cases hdE : doneErrSpec cfg t <;> simp
      · rw [Bool.not_eq_true] at hpip
        simp only [hpip, Bool.not_false, if_true]
        have hcond : termCondSpec cfg (t ++ [EngineEvent.outClose]) = termCondSpec cfg t := by
          simp [termCondSpec, doneOutSpec, doneErrSpec, hasOutClose_append,
            hasErrClose_append, hasProcClose_append, hasProcError_append,
            isOutCloseEv, isErrCloseEv, isProcCloseEv, isProcErrorEv, hpip]
        rw [ht, hcond]
    | errClose =>
      simp only [engineStep]
      by_cases hpip : cfg.stderrPiped = true
      · simp only [hpip, Bool.not_true, Bool.false_eq_true, if_false]
        rw [checkPipesDone_terminal_eq]
        rcases hgl : (runEngine cfg t).exitCode with _ | c0
        · have hpc : hasProcClose t = false := by
            rw [← hexSome, hgl]
            rfl
          have hcondA : termCondSpec cfg (t ++ [EngineEvent.errClose]) = false := by
            simp [termCondSpec, hasProcClose_append, hasProcError_append,
              isProcCloseEv, isProcErrorEv, hpc, hneT]
          have hcondT : termCondSpec cfg t = false := by
            simp [termCondSpec, hpc, hneT]
          rw [hcondT] at ht
          simp only [hgl, hcondA, Bool.false_eq_true, if_false]
          simpa using ht
        · have hc0 : c0 = c := by
            apply hcodesT
            rw [s4] at hgl
            exact mem_of_getLast_eq_some hgl
          subst hc0
          have hpc : hasProcClose t = true := by
            rw [← hexSome, hgl]
            rfl
          have hcondA : termCondSpec cfg (t ++ [EngineEvent.errClose])
              = doneOutSpec cfg t := by
            simp [termCondSpec, doneOutSpec, doneErrSpec, hasOutClose_append,
              hasErrClose_append, hasProcClose_append, hasProcError_append,
              isOutCloseEv, isErrCloseEv, isProcCloseEv, isProcErrorEv,
              hpc, hneT, hpip]
          have hcondT : termCondSpec cfg t
              = (doneOutSpec cfg t && doneErrSpec cfg t) := by
            simp [termCondSpec, hpc, hneT]
          rw [hcondT] at ht
          rw [hcondA]
          simp only [hgl]
          rw [ht, s1]
          cases hdO : doneOutSpec cfg t <;> cases hdE : doneErrSpec cfg t <;> simp
      · rw [Bool.not_eq_true] at hpip
        simp only [hpip, Bool.not_false, if_true]
        have hcond : termCondSpec cfg (t ++ [EngineEvent.errClose]) = termCondSpec cfg t := by
          simp [termCondSpec, doneOutSpec, doneErrSpec, hasOutClose_append,
            hasErrClose_append, hasProcClose_append, hasProcError_append,
            isOutCloseEv, isErrCloseEv, isProcCloseEv, isProcErrorEv, hpip]
        rw [ht, hcond]
    | procClose c1 =>
      have hc1 : c1 = c := by
        apply hcodes
        rw [procCodes_append]
        simp [procCloseCode]
      subst hc1
      simp only [engineStep]
      rw [checkPipesDone_terminal_eq]
      have hcondA : termCondSpec cfg (t ++ [EngineEvent.procClose c1])
          = (doneOutSpec cfg t && doneErrSpec cfg t) := by
        simp [termCondSpec, doneOutSpec, doneErrSpec, hasOutClose_append,
          hasErrClose_append, hasProcClose_append, hasProcError_append,
          isOutCloseEv, isErrCloseEv, isProcCloseEv, isProcErrorEv, hneT]
      rw [hcondA]
      show (match (some c1 : Option Int) with
        | none => (runEngine cfg t).terminal
        | some c2 =>
          if (runEngine cfg t).stdoutDone && (runEngine cfg t).stderrDone
              && (runEngine cfg t).terminal.isNone then
            some (exitTerminal cfg c2)
          else (runEngine cfg t).terminal) = _
      simp only []
      rw [ht, s1, s2]
      have hct : termCondSpec cfg t
          = (hasProcError t
              || (hasProcClose t && doneOutSpec cfg t && doneErrSpec cfg t)) := rfl
      rw [hct, hneT]
      cases hdO : doneOutSpec cfg t <;> cases hdE : doneErrSpec cfg t <;>
        cases hpc2 : hasProcClose t <;> simp
    | procError m =>
      rw [hasProcError_append] at hne
      have : isProcErrorEv (EngineEvent.procError m) = true := rfl
      rw [this] at hne
      simp at hne

theorem runEngine_concat (cfg : EngineCfg) (a b : List EngineEvent) :
    runEngine cfg (a ++ b) = b.foldl (engineStep cfg) (runEngine cfg a) := by
  rw [runEngine, runEngine, List.foldl_append]

theorem engineStep_emitted (cfg : EngineCfg) (s : EngineState) (e : EngineEvent) :
    ∃ add, (engineStep cfg s e).emitted = s.emitted ++ add := by
  cases e with
  | outData b =>
    simp only [engineStep]
    split_ifs
    · exact ⟨[], by simp⟩
    · exact ⟨[], by simp⟩
    · exact ⟨[], by simp⟩
    · exact ⟨[⟨Src.stdout, b⟩], rfl⟩
  | errData b =>
    simp only [engineStep]
    split_ifs
    · exact ⟨[], by simp⟩
    · exact ⟨[], by simp⟩
    · exact ⟨[], by simp⟩
    · exact ⟨[⟨Src.stderr, b⟩], rfl⟩
  | outClose =>
    simp only [engineStep]
    split_ifs
    · exact ⟨[], by simp⟩
    · exact ⟨[], by rw [(checkPipesDone_fields cfg _).2.2.2.2]; simp⟩
  | errClose =>
    simp only [engineStep]
    split_ifs
    · exact ⟨[], by simp⟩
    · exact ⟨[], by rw [(checkPipesDone_fields cfg _).2.2.2.2]; simp⟩
  | procClose c =>
    simp only [engineStep]
    exact ⟨[], by rw [(checkPipesDone_fields cfg _).2.2.2.2]; simp⟩
  | procError m =>
    simp only [engineStep]
    split_ifs
    · exact ⟨[], by simp⟩
    · exact ⟨[], by simp⟩

theorem foldl_emitted (cfg : EngineCfg) :
    ∀ (l : List EngineEvent) (s : EngineState),
      ∃ add, (l.foldl (engineStep cfg) s).emitted = s.emitted ++ add := by
  intro l
  induction l with
  | nil => intro s; exact ⟨[], by simp⟩
  | cons e l ih =>
    intro s
    obtain ⟨a1, h1⟩ := engineStep_emitted cfg s e
    obtain ⟨a2, h2⟩ := ih (engineStep cfg s e)
    exact ⟨a1 ++ a2, by rw [List.foldl_cons, h2, h1, List.append_assoc]⟩

theorem engine_no_loss_out (cfg : EngineCfg) (pre suf : List EngineEvent) (b : String)
    (hpip : cfg.stdoutPiped = true) (hlen : 1 ≤ b.length)
    (hclose : hasOutClose pre = false) (herr : hasProcError pre = false) :
    ∃ tail, (runEngine cfg (pre ++ EngineEvent.outData b :: suf)).emitted
      = (runEngine cfg pre).emitted ++ ⟨Src.stdout, b⟩ :: tail := by
  have hterm : (runEngine cfg pre).terminal.isSome = false := by
    obtain ⟨_, _, _, _, s5⟩ := engine_scalars cfg pre
    rw [s5]
    simp [termCondSpec, doneOutSpec, hpip, hclose, herr]
  have hnlt : ¬(b.length < 1) := by omega
  have hstep : (engineStep cfg (runEngine cfg pre) (EngineEvent.outData b)).emitted
      = (runEngine cfg pre).emitted ++ [⟨Src.stdout, b⟩] := by
    simp only [engineStep, hpip, hterm, hnlt, Bool.not_true, Bool.false_eq_true,
      if_false]
  have hsplit : pre ++ EngineEvent.outData b :: suf
      = (pre ++ [EngineEvent.outData b]) ++ suf := by simp
  rw [hsplit, runEngine_concat, runEngine_append]
  obtain ⟨add, hadd⟩ :=
    foldl_emitted cfg suf (engineStep cfg (runEngine cfg pre) (EngineEvent.outData b))
  refine ⟨add, ?_⟩
  rw [hadd, hstep, List.append_assoc]
  rfl

theorem engine_no_loss_err (cfg : EngineCfg) (pre suf : List EngineEvent) (b : String)
    (hpip : cfg.stderrPiped = true) (hlen : 1 ≤ b.length)
    (hclose : hasErrClose pre = false) (herr : hasProcError pre = false) :
    ∃ tail, (runEngine cfg (pre ++ EngineEvent.errData b :: suf)).emitted
      = (runEngine cfg pre).emitted ++ ⟨Src.stderr, b⟩ :: tail := by
  have hterm : (runEngine cfg pre).terminal.isSome = false := by
    obtain ⟨_, _, _, _, s5⟩ := engine_scalars cfg pre
    rw [s5]
    simp [termCondSpec, doneErrSpec, hpip, hclose, herr]
  have hnlt : ¬(b.length < 1) := by omega
  have hstep : (engineStep cfg (runEngine cfg pre) (EngineEvent.errData b)).emitted
      = (runEngine cfg pre).emitted ++ [⟨Src.stderr, b⟩] := by
    simp only [engineStep, hpip, hterm, hnlt, Bool.not_true, Bool.false_eq_true,
      if_false]
  have hsplit : pre ++ EngineEvent.errData b :: suf
      = (pre ++ [EngineEvent.errData b]) ++ suf := by simp
  rw [hsplit, runEngine_concat, runEngine_append]
  obtain ⟨add, hadd⟩ :=
    foldl_emitted cfg suf (engineStep cfg (runEngine cfg pre) (EngineEvent.errData b))
  refine ⟨add, ?_⟩
  rw [hadd, hstep, List.append_assoc]
  rfl

/-! ## Claim C3 -/

/-- C3: completion ordering.  For a run that launches successfully (no
launch-error notification) and exits naturally with code `c`:
the stream is in a terminal state exactly when the process-exit
notification has been observed and every piped channel has signalled
closed (applying the equivalence to any prefix of the trace shows no
terminal state is reached while one of them is missing); the terminal is
completion for exit code 0 and the SpawnError carrying exit code `c` for
nonzero `c`; and a nonempty chunk arriving on an open channel at any point
before that channel closes — including between process exit and pipe
closure — is emitted, in arrival position, never lost. -/
theorem completion_ordering (cfg : EngineCfg) (t : List EngineEvent) (c : Int)
    (hne : hasProcError t = false) (hcodes : ∀ c0 ∈ procCodes t, c0 = c) :
    ((runEngine cfg t).terminal.isSome
        = (hasProcClose t && (!cfg.stdoutPiped || hasOutClose t)
            && (!cfg.stderrPiped || hasErrClose t)))
    ∧ ((runEngine cfg t).terminal
        = (if termCondSpec cfg t = true then some (exitTerminal cfg c) else none))
    ∧ (∀ pre b suf, t = pre ++ EngineEvent.outData b :: suf →
        cfg.stdoutPiped = true → 1 ≤ b.length → hasOutClose pre = false →
        ∃ tail, (runEngine cfg t).emitted
          = (runEngine cfg pre).emitted ++ ⟨Src.stdout, b⟩ :: tail)
    ∧ (∀ pre b suf, t = pre ++ EngineEvent.errData b :: suf →
        cfg.stderrPiped = true → 1 ≤ b.length → hasErrClose pre = false →
        ∃ tail, (runEngine cfg t).emitted
          = (runEngine cfg pre).emitted ++ ⟨Src.stderr, b⟩ :: tail) := by
  refine ⟨?_, engine_terminal_value cfg c t hne hcodes, ?_, ?_⟩
  · obtain ⟨_, _, _, _, s5⟩ := engine_scalars cfg t
    rw [s5, termCondSpec, doneOutSpec, doneErrSpec, hne]
    simp [Bool.and_assoc]
  · intro pre b suf hsplit hpip hlen hclose
    have herrPre : hasProcError pre = false := by
      rw [hsplit, hasProcError] at hne
      rw [List.any_append] at hne
      exact (Bool.or_eq_false_iff.mp hne).1
    rw [hsplit]
    exact engine_no_loss_out cfg pre suf b hpip hlen hclose herrPre
  · intro pre b suf hsplit hpip hlen hclose
    have herrPre : hasProcError pre = false := by
      rw [hsplit, hasProcError] at hne
      rw [List.any_append] at hne
      exact (Bool.or_eq_false_iff.mp hne).1
    rw [hsplit]
    exact engine_no_loss_err cfg pre suf b hpip hlen hclose herrPre

/-- C3 witness: the completion-ordering theorem applied to the concrete
natural-exit run. -/
theorem completion_ordering_witness :
    hasProcError c3Trace = false
    ∧ (∀ c0 ∈ procCodes c3Trace, c0 = 0)
    ∧ (((runEngine c3Cfg c3Trace).terminal.isSome
        = (hasProcClose c3Trace && (!c3Cfg.stdoutPiped || hasOutClose c3Trace)
            && (!c3Cfg.stderrPiped || hasErrClose c3Trace)))
    ∧ ((runEngine c3Cfg c3Trace).terminal
        = (if termCondSpec c3Cfg c3Trace = true then some (exitTerminal c3Cfg 0)
           else none))
    ∧ (∀ pre b suf, c3Trace = pre ++ EngineEvent.outData b :: suf →
        c3Cfg.stdoutPiped = true → 1 ≤ b.length → hasOutClose pre = false →
        ∃ tail, (runEngine c3Cfg c3Trace).emitted
          = (runEngine c3Cfg pre).emitted ++ ⟨Src.stdout, b⟩ :: tail)
    ∧ (∀ pre b suf, c3Trace = pre ++ EngineEvent.errData b :: suf →
        c3Cfg.stderrPiped = true → 1 ≤ b.length → hasErrClose pre = false →
        ∃ tail, (runEngine c3Cfg c3Trace).emitted
          = (runEngine c3Cfg pre).emitted ++ ⟨Src.stderr, b⟩ :: tail)) :=
  ⟨by decide, by decide, completion_ordering c3Cfg c3Trace 0 (by decide) (by decide)⟩

/-! ## Retry decorator lemmas -/

theorem runRetryFrom_launches_pos (f : Nat → AttemptOutcome) (d : Nat)
    (i rem : Nat) : 1 ≤ (runRetryFrom f d i rem).launches := by
  cases rem with
  | zero =>
    cases hf : f i <;> simp [runRetryFrom, hf]
  | succ r =>
    cases hf : f i with
    | success evs => simp [runRetryFrom, hf]
    | failure evs e =>
      by_cases hr : shouldRetry e = true <;> simp [runRetryFrom, hf, hr]

theorem runRetryFrom_allFail (f : Nat → AttemptOutcome) (d : Nat)
    (evss : Nat → List OutputLine) (errs : Nat → TermErr) :
    ∀ (rem i : Nat),
      (∀ j, j ≤ rem → f (i + j) = .failure (evss (i + j)) (errs (i + j))) →
      (∀ j, j ≤ rem → shouldRetry (errs (i + j)) = true) →
      (runRetryFrom f d i rem).launches = rem + 1
      ∧ (runRetryFrom f d i rem).delays = List.replicate rem d
      ∧ (runRetryFrom f d i rem).terminal = .errored (errs (i + rem)) := by
  intro rem
  induction rem with
  | zero =>
    intro i hfail _hretry
    have h0 := hfail 0 (Nat.le_refl 0)
    rw [Nat.add_zero] at h0
    refine ⟨?_, ?_, ?_⟩ <;> simp [runRetryFrom, h0]
  | succ r ih =>
    intro i hfail hretry
    have h0 := hfail 0 (Nat.zero_le _)
    rw [Nat.add_zero] at h0
    have hr0 := hretry 0 (Nat.zero_le _)
    rw [Nat.add_zero] at hr0
    have hshift : ∀ j, j ≤ r → f (i + 1 + j) = .failure (evss (i + 1 + j)) (errs (i + 1 + j)) := by
      intro j hj
      have := hfail (j + 1) (Nat.succ_le_succ hj)
      rwa [show i + (j + 1) = i + 1 + j by omega] at this
    have hshift2 : ∀ j, j ≤ r → shouldRetry (errs (i + 1 + j)) = true := by
      intro j hj
      have := hretry (j + 1) (Nat.succ_le_succ hj)
      rwa [show i + (j + 1) = i + 1 + j by omega] at this
    obtain ⟨ih1, ih2, ih3⟩ := ih (i + 1) hshift hshift2
    have harith : i + 1 + r = i + (r + 1) := by omega
    rw [harith] at ih3
    refine ⟨?_, ?_, ?_⟩ <;>
      simp [runRetryFrom, h0, hr0, ih1, ih2, ih3, List.replicate_succ]

/-! ## Claim C2 -/

/-- C2 counterexample: the timeout error is a SpawnError with exit code -1,
so the retry criterion at line 559 accepts it — with one retry configured a
timed-out attempt is relaunched after the delay (2 launches, one wait)
rather than propagating on first occurrence. -/
theorem retry_timeout_counterexample :
    shouldRetry (timeoutSpawnError 50 "sleep" ["10"]) = true
    ∧ (runRetry timeoutFailAttempts 1 (some 10)).launches = 2
    ∧ (runRetry timeoutFailAttempts 1 (some 10)).delays = [10] :=
  ⟨by decide, by decide, by decide⟩

/-- C2 amended: the retry criterion is exactly a SpawnError with nonzero
exitCode — which covers process-exit failures and timeout failures (exit
code -1) alike; every non-SpawnError terminal error (launch failure, stdin
conflict, generic error) is never retried and propagates immediately on
first occurrence (one launch, no delay), while a retryable error with
budget left does relaunch. -/
theorem retry_predicate (retries : Nat) (d : Option Nat)
    (f : Nat → AttemptOutcome) (evs : List OutputLine) (e : TermErr) :
    (∀ msg c cmd args so se,
      shouldRetry (.spawnErr msg c cmd args so se) = (c != 0))
    ∧ (∀ msg, shouldRetry (.genericErr msg) = false)
    ∧ (shouldRetry e = false → f 0 = .failure evs e →
        runRetry f retries d = ⟨1, [], evs, .errored e⟩)
    ∧ (shouldRetry e = true → f 0 = .failure evs e → 0 < retries →
        2 ≤ (runRetry f retries d).launches) := by
  refine ⟨fun _ _ _ _ _ _ => rfl, fun _ => rfl, ?_, ?_⟩
  · intro hsr hf0
    cases retries with
    | zero => simp [runRetry, runRetryFrom, hf0]
    | succ r => simp [runRetry, runRetryFrom, hf0, hsr]
  · intro hsr hf0 hpos
    cases retries with
    | zero => exact absurd hpos (by omega)
    | succ r =>
      have := runRetryFrom_launches_pos f (effectiveRetryDelay d) 1 r
      simp [runRetry, runRetryFrom, hf0, hsr]
      omega

/-- C2 witness: a launch failure (plain Error) with budget available is not
retried and surfaces immediately. -/
theorem retry_predicate_witness :
    shouldRetry (.genericErr "spawn ENOENT") = false
    ∧ genericFailAttempts 0 = .failure [] (.genericErr "spawn ENOENT")
    ∧ runRetry genericFailAttempts 3 (some 5)
        = ⟨1, [], [], .errored (.genericErr "spawn ENOENT")⟩ :=
  ⟨by decide, by decide,
    (retry_predicate 3 (some 5) genericFailAttempts [] (.genericErr "spawn ENOENT")).2.2.1
      (by decide) (by decide)⟩

/-! ## Claim C6 -/

/-- C6: with retries R configured against a command whose every attempt
fails with a nonzero exit code, exactly R+1 launches occur, every retry
waits the configured delay (1000ms when unspecified), each attempt is a
fresh invocation of the cold stream (indexed attempt family: resolution
and launch re-run per attempt), and the final rejection is the last
attempt's SpawnError with its exit code. -/
theorem retry_exhaustion (f : Nat → AttemptOutcome) (retries : Nat)
    (retryDelay : Option Nat) (cmd : String) (args : List String)
    (evss : Nat → List OutputLine) (codes : Nat → Int)
    (hfail : ∀ i, i ≤ retries →
      f i = .failure (evss i) (exitSpawnError (codes i) cmd args))
    (hnz : ∀ i, i ≤ retries → codes i ≠ 0) :
    (runRetry f retries retryDelay).launches = retries + 1
    ∧ (runRetry f retries retryDelay).delays
        = List.replicate retries (effectiveRetryDelay retryDelay)
    ∧ (runRetry f retries retryDelay).terminal
        = .errored (exitSpawnError (codes retries) cmd args)
    ∧ (retryDelay = none → effectiveRetryDelay retryDelay = 1000) := by
  have hmain := runRetryFrom_allFail f (effectiveRetryDelay retryDelay)
    (fun i => evss i) (fun i => exitSpawnError (codes i) cmd args) retries 0
    (by intro j hj; rw [Nat.zero_add]; exact hfail j hj)
    (by
      intro j hj
      rw [Nat.zero_add]
      have := hnz j hj
      simp [shouldRetry, exitSpawnError]
      exact this)
  obtain ⟨h1, h2, h3⟩ := hmain
  rw [Nat.zero_add] at h3
  refine ⟨h1, h2, h3, ?_⟩
  intro hnone
  rw [hnone]
  rfl

/-- C6 witness: retries=2 with delay 10 against a command always exiting
with code 1 makes exactly 3 launches, waits [10, 10], and rejects with exit
code 1. -/
theorem retry_exhaustion_witness :
    (∀ i, i ≤ 2 →
      alwaysFailAttempts i = .failure [] (exitSpawnError 1 "false" []))
    ∧ (∀ i : Nat, i ≤ 2 → (1 : Int) ≠ 0)
    ∧ ((runRetry alwaysFailAttempts 2 (some 10)).launches = 2 + 1
      ∧ (runRetry alwaysFailAttempts 2 (some 10)).delays
          = List.replicate 2 (effectiveRetryDelay (some 10))
      ∧ (runRetry alwaysFailAttempts 2 (some 10)).terminal
          = .errored (exitSpawnError 1 "false" [])
      ∧ ((some 10 : Option Nat) = none → effectiveRetryDelay (some 10) = 1000)) :=
  ⟨by decide, by decide,
    retry_exhaustion alwaysFailAttempts 2 (some 10) "false" []
      (fun _ => []) (fun _ => 1) (by decide) (by decide)⟩

/-! ## String helper lemmas -/

theorem isPrefixOf_append_self : ∀ (a b : List Char), a.isPrefixOf (a ++ b) = true := by
  intro a
  induction a with
  | nil => intro b; simp [List.isPrefixOf]
  | cons x t ih =>
    intro b
    simp [List.isPrefixOf, ih]

theorem listContainsSub_of_isPre (h n : List Char) (hp : n.isPrefixOf h = true) :
    listContainsSub h n = true := by
  cases h with
  | nil => simpa [listContainsSub] using hp
  | cons x t => simp [listContainsSub, hp]

theorem listContainsSub_append_self (a b : List Char) :
    listContainsSub (a ++ b) a = true :=
  listContainsSub_of_isPre (a ++ b) a (isPrefixOf_append_self a b)

theorem strContainsSub_append (a b : String) :
    strContainsSub (a ++ b) a = true := by
  cases a with
  | mk as =>
    cases b with
    | mk bs =>
      show listContainsSub (as ++ bs) as = true
      exact listContainsSub_append_self as bs

theorem strAppend_ne_empty (a b : String) (ha : a ≠ "") : a ++ b ≠ "" := by
  intro h
  apply ha
  cases a with
  | mk as =>
    cases b with
    | mk bs =>
      have h2 : as ++ bs = ([] : List Char) := congrArg String.data h
      cases as with
      | nil => rfl
      | cons c t => exact absurd h2 (by simp)

/-! ## Claim C7 -/

/-- C7 counterexample: with an exit-0 run that wrote to both channels, the
merged aggregation resolves with all event texts concatenated ("ab"), not
the stdout-only concatenation ("a"); and for a split-mode failing run that
wrote only to stderr, the rejection message does not contain the stderr
output (it lives only in the stderr field). -/
theorem aggregation_counterexample :
    wrapObservableInPromise
        (mergedTexts [⟨Src.stdout, "a"⟩, ⟨Src.stderr, "b"⟩]) Terminal.completed
      = Except.ok "ab"
    ∧ claimedMergedResult [⟨Src.stdout, "a"⟩, ⟨Src.stderr, "b"⟩] = "a"
    ∧ "ab" ≠ "a"
    ∧ wrapObservableInSplitPromise [⟨Src.stderr, "bb"⟩]
        (Terminal.errored (exitSpawnError 1 "uuid" ["foo"]))
      = Except.error (.spawnErr ("\n" ++ "Process failed with exit code: 1")
          1 "uuid" ["foo"] (some "") (some "bb"))
    ∧ strContainsSub ("\n" ++ "Process failed with exit code: 1") "bb" = false :=
  ⟨rfl, by decide, by decide, rfl, by decide⟩

/-- C7 amended: for exit code 0 the merged aggregation resolves with the
concatenation of all emitted event texts (stdout and stderr alike) in
arrival order, and the split aggregation resolves with the pair
(stdout-concatenation, stderr-concatenation).  For nonzero exit code N both
aggregations reject with a SpawnError whose exitCode is N and whose message
is the accumulated buffer (all text for merged, the stdout buffer for
split) followed by the engine error message — so the merged message
contains all accumulated output, the split message contains the accumulated
stdout, and the split rejection carries both partial buffers in its stdout
and stderr fields. -/
theorem aggregation_behavior (evs : List OutputLine) (c : Int)
    (cmd : String) (args : List String) :
    wrapObservableInPromise (mergedTexts evs) Terminal.completed
        = Except.ok (String.join (mergedTexts evs))
    ∧ wrapObservableInSplitPromise evs Terminal.completed
        = Except.ok (stdoutConcat evs, stderrConcat evs)
    ∧ wrapObservableInPromise (mergedTexts evs)
          (Terminal.errored (exitSpawnError c cmd args))
        = Except.error (.spawnErr
            (String.join (mergedTexts evs) ++ "\n"
              ++ ("Process failed with exit code: " ++ toString c))
            c cmd args (some (String.join (mergedTexts evs))) none)
    ∧ wrapObservableInSplitPromise evs
          (Terminal.errored (exitSpawnError c cmd args))
        = Except.error (.spawnErr
            (stdoutConcat evs ++ "\n" ++ ("Process failed with exit code: " ++ toString c))
            c cmd args (some (stdoutConcat evs)) (some (stderrConcat evs)))
    ∧ strContainsSub
        (String.join (mergedTexts evs) ++ ("\n"
          ++ ("Process failed with exit code: " ++ toString c)))
        (String.join (mergedTexts evs)) = true
    ∧ strContainsSub
        (stdoutConcat evs ++ ("\n" ++ ("Process failed with exit code: " ++ toString c)))
        (stdoutConcat evs) = true := by
  refine ⟨rfl, rfl, rfl, rfl, ?_, ?_⟩
  · exact strContainsSub_append _ _
  · exact strContainsSub_append _ _

/-! ## Claim C10 -/

theorem utf8Chars_ne_nil (b : Nat) (rest : List Nat) :
    utf8Chars (b :: rest) ≠ [] := by
  rw [utf8Chars]
  exact List.cons_ne_nil _ _

theorem lostChunkPlaceholder_ne_empty (exe : String) (len : Nat) :
    lostChunkPlaceholder exe len ≠ "" := by
  rw [lostChunkPlaceholder]
  apply strAppend_ne_empty
  apply strAppend_ne_empty
  apply strAppend_ne_empty
  apply strAppend_ne_empty
  decide

/-- C10 counterexample: with the utf16le encoding a one-byte OS chunk
passes the length guard but decodes to the empty string (node reads
little-endian byte pairs, a lone trailing byte yields no code unit), so
bufHandler emits an OutputEvent whose text is empty. -/
theorem empty_output_event_counterexample :
    decodeUtf16le [65] = ""
    ∧ bufHandler "marked" (some NodeEncoding.utf16le) false Src.stdout
        (Chunk.bufChunk [65])
      = (some ⟨Src.stdout, ""⟩, false)
    ∧ (some (⟨Src.stdout, ""⟩ : OutputLine)).isSome = true :=
  ⟨rfl, rfl, rfl⟩

/-- C10 amended: bufHandler drops any chunk of length zero before echoing
or emitting, under every option configuration; a nonempty string chunk is
emitted as is (nonempty text); a decode failure substitutes the fixed
placeholder, which is never empty; with the default utf8 encoding (also
when no encoding is configured) a nonempty buffer always decodes to
nonempty text — but a two-byte-unit encoding (utf16le) can decode a
nonempty buffer to an empty string, and the resulting empty-text event is
emitted rather than suppressed. -/
theorem bufHandler_behavior (exe : String) (encoding : Option NodeEncoding)
    (echoOutput : Bool) (source : Src) :
    (∀ s : String, s.length = 0 →
      bufHandler exe encoding echoOutput source (.strChunk s) = (none, false))
    ∧ bufHandler exe encoding echoOutput source (.bufChunk []) = (none, false)
    ∧ (∀ len : Nat, len = 0 →
        bufHandler exe encoding echoOutput source (.undecodableChunk len)
          = (none, false))
    ∧ (∀ s : String, 1 ≤ s.length →
        bufHandler exe encoding echoOutput source (.strChunk s)
          = (some ⟨source, s⟩, echoOutput) ∧ s ≠ "")
    ∧ (∀ len : Nat, 1 ≤ len →
        bufHandler exe encoding echoOutput source (.undecodableChunk len)
          = (some ⟨source, lostChunkPlaceholder exe len⟩, echoOutput)
          ∧ lostChunkPlaceholder exe len ≠ "")
    ∧ (∀ bytes : List Nat, 1 ≤ bytes.length →
        bufHandler exe (some NodeEncoding.utf8) echoOutput source (.bufChunk bytes)
          = (some ⟨source, decodeUtf8 bytes⟩, echoOutput)
          ∧ decodeUtf8 bytes ≠ "")
    ∧ (∀ bytes : List Nat, 1 ≤ bytes.length →
        bufHandler exe none echoOutput source (.bufChunk bytes)
          = (some ⟨source, decodeUtf8 bytes⟩, echoOutput)) := by
  refine ⟨?_, ?_, ?_, ?_, ?_, ?_, ?_⟩
  · intro s hs
    simp [bufHandler, chunkLength, hs]
  · simp [bufHandler, chunkLength]
  · intro len hlen
    simp [bufHandler, chunkLength, hlen]
  · intro s hs
    have hnlt : ¬(s.length < 1) := by omega
    have hne : s ≠ "" := by
      intro h
      rw [h] at hs
      simp at hs
    exact ⟨by simp [bufHandler, chunkLength, hnlt], hne⟩
  · intro len hlen
    have hnlt : ¬(len < 1) := by omega
    exact ⟨by simp [bufHandler, chunkLength, hnlt],
      lostChunkPlaceholder_ne_empty exe len⟩
  · intro bytes hlen
    have hnlt : ¬(bytes.length < 1) := by omega
    refine ⟨by simp [bufHandler, chunkLength, hnlt, bufDecode], ?_⟩
    cases bytes with
    | nil => simp at hlen
    | cons b rest =>
      rw [decodeUtf8, Ne, String.ext_iff]
      exact utf8Chars_ne_nil b rest
  · intro bytes hlen
    have hnlt : ¬(bytes.length < 1) := by omega
    simp [bufHandler, chunkLength, hnlt, bufDecode]

/-- C10 witness: the amended bufHandler characterization evaluated at the
default encoding on the one-byte chunk 0x41 (emits text "A", nonempty). -/
theorem bufHandler_behavior_witness :
    (1 ≤ ([65] : List Nat).length)
    ∧ (bufHandler "uuid" (some NodeEncoding.utf8) false Src.stdout (.bufChunk [65])
        = (some ⟨Src.stdout, decodeUtf8 [65]⟩, false)
      ∧ decodeUtf8 [65] ≠ "") :=
  ⟨by decide,
    (bufHandler_behavior "uuid" (some NodeEncoding.utf8) false Src.stdout).2.2.2.2.2.1
      [65] (by decide)⟩

/-! ## Claim C1 -/

/-- C1 counterexample: the observable returned by spawn carries no
multicast operator, so two consumers subscribing to the same stream each
run the subscribe function: two processes are launched (not one), with
distinct process ids. -/
theorem multicast_counterexample :
    (spawnSubscribe plainScenario
        (spawnSubscribe plainScenario ⟨0, []⟩).world).world.launchCount = 2
    ∧ ¬((spawnSubscribe plainScenario
        (spawnSubscribe plainScenario ⟨0, []⟩).world).world.launchCount = 1)
    ∧ (spawnSubscribe plainScenario ⟨0, []⟩).sub.procId
        ≠ (spawnSubscribe plainScenario
            (spawnSubscribe plainScenario ⟨0, []⟩).world).sub.procId := by
  refine ⟨by decide, by decide, by decide⟩

/-- C1 amended: the stream returned by spawn is cold, not multicast.
Constructing it launches nothing; each subscribing consumer runs the
subscribe function and launches exactly one fresh process of its own (ids
distinct per subscription); a consumer detaching before natural close
tears down its own process exactly once (a second finalization is a
no-op), and detaching after the close/error handlers have marked noClose
issues no kill. -/
theorem cold_stream_per_subscription (sc : SpawnScenario) (w w2 : ProcWorld)
    (pid : Nat) :
    (mkSpawnStream w).1 = w
    ∧ (spawnSubscribe sc w).world.launchCount = w.launchCount + 1
    ∧ (spawnSubscribe sc w).sub.procId = w.launchCount
    ∧ unsubscribeSub ⟨pid, false, false⟩ w2
        = (⟨pid, false, true⟩, { w2 with killRequests := w2.killRequests ++ [pid] })
    ∧ (∀ nc : Bool, unsubscribeSub ⟨pid, nc, true⟩ w2 = (⟨pid, nc, true⟩, w2))
    ∧ unsubscribeSub (notifyNaturalClose ⟨pid, false, false⟩) w2
        = (⟨pid, true, true⟩, w2) := by
  refine ⟨rfl, ?_, ?_, by simp [unsubscribeSub], ?_, by simp [unsubscribeSub, notifyNaturalClose]⟩
  · simp only [spawnSubscribe]
    split_ifs <;> rfl
  · simp only [spawnSubscribe]
    split_ifs <;> rfl
  · intro nc
    simp [unsubscribeSub]

/-! ## Claim C4 -/

/-- C4 counterexample: on a stdin conflict (input source configured, no
writable child channel) the stream errors synchronously, and the
subscription finalization that follows runs the teardown with noClose
still false — issuing a kill request for the just-launched child, which is
therefore not left running. -/
theorem stdin_conflict_counterexample :
    (spawnSubscribe ⟨true, false⟩ ⟨0, []⟩).terminalNow = some stdinConflictError
    ∧ (spawnSubscribe ⟨true, false⟩ ⟨0, []⟩).world.killRequests = [0]
    ∧ (spawnSubscribe ⟨true, false⟩ ⟨0, []⟩).world.killRequests ≠ [] := by
  refine ⟨by decide, by decide, by decide⟩

/-- C4 amended: with an input-chunk source configured and no writable child
input channel, the subscription launches the child, terminates immediately
with the stdin-conflict error, and — because the error closes the
subscriber before the teardown is attached — the finalization kills the
just-launched child (one kill request, not zero). -/
theorem stdin_conflict_behavior (sc : SpawnScenario) (w : ProcWorld)
    (hstdin : sc.hasStdinOpt = true) (hnone : sc.childStdinAvailable = false) :
    spawnSubscribe sc w
      = ⟨⟨w.launchCount + 1, w.killRequests ++ [w.launchCount]⟩,
         ⟨w.launchCount, false, true⟩, some stdinConflictError⟩ := by
  simp [spawnSubscribe, hstdin, hnone]

/-- C4 witness: the stdin-conflict behavior at a concrete world. -/
theorem stdin_conflict_behavior_witness :
    (⟨true, false⟩ : SpawnScenario).hasStdinOpt = true
    ∧ (⟨true, false⟩ : SpawnScenario).childStdinAvailable = false
    ∧ spawnSubscribe ⟨true, false⟩ ⟨5, [9]⟩
        = ⟨⟨6, [9, 5]⟩, ⟨5, false, true⟩, some stdinConflictError⟩ :=
  ⟨rfl, rfl, stdin_conflict_behavior ⟨true, false⟩ ⟨5, [9]⟩ rfl rfl⟩
